import Mathlib

/-!
Shallow embedding of the RMC sentence decoder from `src/sentences/rmc.rs`
(crate `nmea`), together with proofs of the specification claims.

Strings are embedded as `List Char`; a field decoder is a function
`List Char → Option (α × List Char)` returning the decoded value and the
unconsumed suffix (`none` = recoverable parse failure, as in nom).
Floating-point values are embedded as exact rationals `ℚ`; the decimal
numerals appearing in NMEA sentences are parsed exactly, so the embedding
is faithful on every value the grammar can produce.

The generic field decoders (`parse_hms`, `parse_date`, `parse_lat_lon`,
nom's `float`, `char`, `one_of`, `opt`) and the framing types
(`NmeaSentence`, `SentenceType`, `Error`) live outside `src/` in the
crate; they are modelled here from the specification's interface
contracts (spec §6) and from the field-format comments in `rmc.rs`.
-/

namespace Nmea

/-- Time of day with sub-second (millisecond) precision, standing for
`chrono::NaiveTime` as produced by `NaiveTime::from_hms_milli`. -/
structure NaiveTime where
  hour : Nat
  minute : Nat
  second : Nat
  milli : Nat
  deriving DecidableEq, Repr

/-- Calendar date, standing for `chrono::NaiveDate` as produced by
`NaiveDate::from_ymd`. -/
structure NaiveDate where
  year : Nat
  month : Nat
  day : Nat
  deriving DecidableEq, Repr

/-- `RmcStatusOfFix` from `rmc.rs`. -/
inductive RmcStatusOfFix where
  | Autonomous
  | Differential
  | Invalid
  deriving DecidableEq, Repr

/-- `RmcData` from `rmc.rs`; `f64`/`f32` fields are embedded as `ℚ`. -/
structure RmcData where
  fix_time : Option NaiveTime
  fix_date : Option NaiveDate
  status_of_fix : RmcStatusOfFix
  lat : Option ℚ
  lon : Option ℚ
  speed_over_ground : Option ℚ
  true_course : Option ℚ
  deriving DecidableEq, Repr

/-- Modelled from the spec: the subset of the crate's `SentenceType` tag
enumeration (not under `src/`) needed for the type guard; `RMC` is the
expected tag, the others stand for differently-tagged sentences. -/
inductive SentenceType where
  | RMC
  | GGA
  | GSA
  | GSV
  | VTG
  deriving DecidableEq, Repr

/-- Modelled from the spec: the crate's `Error` type (not under `src/`),
restricted to the outcomes reachable from `parse_rmc`: the
wrong-sentence-type error carrying the expected and the found tag
(spec §4.1/§7 WrongSentenceType), and the structural decode failure
(spec §7 MalformedField / TruncatedSentence, both surfaced through nom's
error type as `Error::ParsingError`). -/
inductive Error where
  | WrongSentenceHeader (expected : SentenceType) (found : SentenceType)
  | ParsingError
  deriving DecidableEq, Repr

/-- Modelled from the spec: the framed-sentence record handed to the core
by the framing collaborator (spec §6): the declared message-type tag and
the field-data string. -/
structure NmeaSentence where
  message_id : SentenceType
  data : List Char
  deriving DecidableEq, Repr

/-! ## nom primitives, modelled on `List Char` -/

/-- nom's `char(c)`: consume exactly the character `c`. -/
def pchar (c : Char) : List Char → Option (Unit × List Char)
  | x :: rest => if x = c then some ((), rest) else none
  | [] => none

/-- nom's `one_of(cs)`: consume one character that is a member of `cs`. -/
def one_of (cs : List Char) : List Char → Option (Char × List Char)
  | x :: rest => if x ∈ cs then some (x, rest) else none
  | [] => none

/-- nom's `opt(p)`: try `p`; on failure succeed with `none` consuming
nothing. -/
def optP {α : Type} (p : List Char → Option (α × List Char))
    (i : List Char) : Option α × List Char :=
  match p i with
  | some (a, rest) => (some a, rest)
  | none => (none, i)

/-- Numeric value of a decimal digit character. -/
def digitVal (c : Char) : Nat := c.toNat - '0'.toNat

/-- Greedily take the longest prefix of decimal digits. -/
def takeDigits : List Char → List Char × List Char
  | c :: rest =>
    if c.isDigit then (c :: (takeDigits rest).1, (takeDigits rest).2)
    else ([], c :: rest)
  | [] => ([], [])

/-- Value of a digit string, most significant digit first. -/
def natOfDigits (ds : List Char) : Nat :=
  ds.foldl (fun acc c => 10 * acc + digitVal c) 0

/-- Consume exactly two decimal digits, returning their value. -/
def digit2 : List Char → Option (Nat × List Char)
  | a :: b :: rest =>
    if a.isDigit ∧ b.isDigit then some (10 * digitVal a + digitVal b, rest)
    else none
  | _ => none

/-- Consume exactly three decimal digits, returning their value. -/
def digit3 : List Char → Option (Nat × List Char)
  | a :: b :: c :: rest =>
    if a.isDigit ∧ b.isDigit ∧ c.isDigit then
      some (100 * digitVal a + 10 * digitVal b + digitVal c, rest)
    else none
  | _ => none

/-- Milliseconds denoted by a fractional-second digit string (the digits
after the decimal point), truncated to millisecond precision:
`"33"` denotes 330 ms. -/
def milliOfFrac (ds : List Char) : Nat :=
  natOfDigits (ds.take 3) * 10 ^ (3 - (ds.take 3).length)

/-- Modelled from the spec: the time-of-day decoder `parse_hms` (crate
`sentences/utils.rs`, not under `src/`). Spec §6: consumes a numeral of
the shape `hhmmss[.ss]`; fails on empty or malformed input (absence is
produced by the enclosing `opt`). -/
def parse_hms (i : List Char) : Option (NaiveTime × List Char) :=
  match digit2 i with
  | none => none
  | some (h, i) =>
    match digit2 i with
    | none => none
    | some (m, i) =>
      match digit2 i with
      | none => none
      | some (s, i) =>
        match i with
        | c :: r =>
          if c = '.' then
            match takeDigits r with
            | ([], _) => none
            | (ds, r) => some (⟨h, m, s, milliOfFrac ds⟩, r)
          else some (⟨h, m, s, 0⟩, c :: r)
        | [] => some (⟨h, m, s, 0⟩, [])

/-- Modelled from the spec: the calendar-date decoder `parse_date` (crate
`sentences/utils.rs`, not under `src/`). Spec §6: consumes a numeral of
the shape `ddmmyy`; the two-digit year is widened with the usual pivot,
pinned by the spec's scenario `191194` ↦ 19 November 1994. -/
def parse_date (i : List Char) : Option (NaiveDate × List Char) :=
  match digit2 i with
  | none => none
  | some (d, i) =>
    match digit2 i with
    | none => none
    | some (m, i) =>
      match digit2 i with
      | none => none
      | some (y, i) =>
        some (⟨if y ≥ 70 then 1900 + y else 2000 + y, m, d⟩, i)

/-- Unsigned decimal numeral with optional fractional part, as an exact
rational: the core of nom's `float` on the numerals NMEA emits. -/
def parse_ufloat (i : List Char) : Option (ℚ × List Char) :=
  match takeDigits i with
  | ([], _) => none
  | (ds, r) =>
    match r with
    | c :: r2 =>
      if c = '.' then
        match takeDigits r2 with
        | ([], _) => some ((natOfDigits ds : ℚ), c :: r2)
        | (fs, r3) =>
          some ((natOfDigits ds : ℚ) + (natOfDigits fs : ℚ) / 10 ^ fs.length, r3)
      else some ((natOfDigits ds : ℚ), c :: r2)
    | [] => some ((natOfDigits ds : ℚ), [])

/-- Modelled from the spec: nom's `float` combinator on the decimal
numerals of the protocol (spec §6 "floating-point decoder"), with an
optional leading sign, embedded exactly in `ℚ`. -/
def parse_float (i : List Char) : Option (ℚ × List Char) :=
  match i with
  | c :: r =>
    if c = '+' then parse_ufloat r
    else if c = '-' then
      match parse_ufloat r with
      | none => none
      | some (q, r) => some (-q, r)
    else parse_ufloat (c :: r)
  | [] => none

/-- Modelled from the spec: the coordinate-pair decoder `parse_lat_lon`
(crate `sentences/utils.rs`, not under `src/`). Spec §6: consumes
`lat,hemisphere,lon,hemisphere` positionally — latitude `ddmm.mm` with
`N`/`S`, longitude `dddmm.mm` with `E`/`W` (formats from the `rmc.rs`
doc comment), the hemisphere letter flipping the sign — and returns
either both values absent (entirely empty coordinate region, i.e. the
three inner delimiters with all four subfields empty) or both present;
a partially populated or malformed region is a failure. -/
def parse_lat_lon_full (i : List Char) :
    Option (Option (ℚ × ℚ) × List Char) :=
  match digit2 i with
  | none => none
  | some (latd, i) =>
    match parse_ufloat i with
    | none => none
    | some (latm, i) =>
      match pchar ',' i with
      | none => none
      | some (_, i) =>
        match one_of ['N', 'S'] i with
        | none => none
        | some (ns, i) =>
          match pchar ',' i with
          | none => none
          | some (_, i) =>
            match digit3 i with
            | none => none
            | some (lond, i) =>
              match parse_ufloat i with
              | none => none
              | some (lonm, i) =>
                match pchar ',' i with
                | none => none
                | some (_, i) =>
                  match one_of ['E', 'W'] i with
                  | none => none
                  | some (ew, i) =>
                    some (some (((if ns = 'S' then -((latd : ℚ) + latm / 60)
                                  else (latd : ℚ) + latm / 60),
                                 (if ew = 'W' then -((lond : ℚ) + lonm / 60)
                                  else (lond : ℚ) + lonm / 60))), i)

/-- Modelled from the spec (continued): the decoder first recognises the
entirely-empty coordinate region and otherwise runs the full positional
parse. -/
def parse_lat_lon (i : List Char) :
    Option (Option (ℚ × ℚ) × List Char) :=
  match i with
  | a :: b :: c :: r =>
    if a = ',' ∧ b = ',' ∧ c = ',' then some (none, r)
    else parse_lat_lon_full (a :: b :: c :: r)
  | _ => parse_lat_lon_full i

/-! ## The RMC decoder from `rmc.rs` -/

/-- Outcome of `do_parse_rmc`: success with the record and the unconsumed
suffix, recoverable parse failure (nom `Err`), or the `unreachable!()`
panic arm of the status match. -/
inductive PR (α : Type) where
  | ok (val : α) (rest : List Char)
  | fail
  | panic
  deriving DecidableEq, Repr

/-- The status-code match from `do_parse_rmc` (`rmc.rs` lines 61–66):
`'A' → Autonomous`, `'D' → Differential`, `'V' → Invalid`; `none` stands
for the `unreachable!()` catch-all arm. -/
def statusFromChar (c : Char) : Option RmcStatusOfFix :=
  if c = 'A' then some .Autonomous
  else if c = 'D' then some .Differential
  else if c = 'V' then some .Invalid
  else none

/-- The closed status alphabet handed to `one_of` in `rmc.rs`. -/
def statusChars : List Char := ['A', 'D', 'V']

/-- `do_parse_rmc` from `rmc.rs`, line by line: `opt(parse_hms)`, comma,
`one_of("ADV")` mapped through the status match, comma, `parse_lat_lon`,
comma, `opt(float)` twice with commas, `opt(parse_date)`, and a final
comma; the record is assembled with `lat`/`lon` projected from the one
coordinate-pair value. -/
def do_parse_rmc (input : List Char) : PR RmcData :=
  match optP parse_hms input with
  | (fix_time, i) =>
    match pchar ',' i with
    | none => .fail
    | some (_, i) =>
      match one_of statusChars i with
      | none => .fail
      | some (c, i) =>
        match statusFromChar c with
        | none => .panic
        | some status_of_fix =>
          match pchar ',' i with
          | none => .fail
          | some (_, i) =>
            match parse_lat_lon i with
            | none => .fail
            | some (lat_lon, i) =>
              match pchar ',' i with
              | none => .fail
              | some (_, i) =>
                match optP parse_float i with
                | (speed_over_ground, i) =>
                  match pchar ',' i with
                  | none => .fail
                  | some (_, i) =>
                    match optP parse_float i with
                    | (true_course, i) =>
                      match pchar ',' i with
                      | none => .fail
                      | some (_, i) =>
                        match optP parse_date i with
                        | (fix_date, i) =>
                          match pchar ',' i with
                          | none => .fail
                          | some (_, i) =>
                            .ok { fix_time := fix_time,
                                  fix_date := fix_date,
                                  status_of_fix := status_of_fix,
                                  lat := lat_lon.map Prod.fst,
                                  lon := lat_lon.map Prod.snd,
                                  speed_over_ground := speed_over_ground,
                                  true_course := true_course } i

/-- `parse_rmc` from `rmc.rs`: the sentence-type guard, then the field
decode. The outer `Option` models panic propagation: `none` is a panic
escaping `do_parse_rmc` (proved unreachable below); `some` carries the
Rust `Result`. -/
def parse_rmc (sentence : NmeaSentence) : Option (Except Error RmcData) :=
  if sentence.message_id ≠ SentenceType.RMC then
    some (.error (.WrongSentenceHeader SentenceType.RMC sentence.message_id))
  else
    match do_parse_rmc sentence.data with
    | .ok data _ => some (.ok data)
    | .fail => some (.error .ParsingError)
    | .panic => none

/-! ## Evaluation lemmas for digit characters -/

theorem digitVal_0 : digitVal '0' = 0 := by decide

theorem digitVal_1 : digitVal '1' = 1 := by decide

theorem digitVal_2 : digitVal '2' = 2 := by decide

theorem digitVal_3 : digitVal '3' = 3 := by decide

theorem digitVal_4 : digitVal '4' = 4 := by decide

theorem digitVal_5 : digitVal '5' = 5 := by decide

theorem digitVal_6 : digitVal '6' = 6 := by decide

theorem digitVal_7 : digitVal '7' = 7 := by decide

theorem digitVal_8 : digitVal '8' = 8 := by decide

theorem digitVal_9 : digitVal '9' = 9 := by decide

/-! ## Structural lemmas about the primitives

The `…_append` lemmas say that a parser's success on `i` is preserved when
text is appended after `i`, provided the parser's stopping decisions are
visible inside `i` (for the greedy numeral parsers: the unconsumed suffix
starts with the field delimiter `','`). They drive the claims about
trailing protocol-revision fields. -/

theorem pchar_some {c : Char} {i r : List Char} {u : Unit}
    (h : pchar c i = some (u, r)) : i = c :: r := by
  cases i with
  | nil => simp [pchar] at h
  | cons x t =>
    by_cases hx : x = c
    · subst hx
      simp [pchar] at h
      simp [h]
    · simp [pchar, hx] at h

theorem pchar_cons (c : Char) (r : List Char) :
    pchar c (c :: r) = some ((), r) := by
  simp [pchar]

theorem one_of_some {cs : List Char} {i : List Char} {c : Char}
    {r : List Char} (h : one_of cs i = some (c, r)) :
    i = c :: r ∧ c ∈ cs := by
  cases i with
  | nil => simp [one_of] at h
  | cons x t =>
    by_cases hx : x ∈ cs
    · simp [one_of, hx] at h
      obtain ⟨h1, h2⟩ := h
      subst h1; subst h2
      exact ⟨rfl, hx⟩
    · simp [one_of, hx] at h

theorem one_of_cons_mem {cs : List Char} {c : Char} (r : List Char)
    (h : c ∈ cs) : one_of cs (c :: r) = some (c, r) := by
  simp [one_of, h]

theorem takeDigits_append {i ds r : List Char} {c : Char}
    (h : takeDigits i = (ds, c :: r)) (e : List Char) :
    takeDigits (i ++ e) = (ds, c :: (r ++ e)) := by
  induction i generalizing ds with
  | nil => simp [takeDigits] at h
  | cons x t ih =>
    by_cases hx : x.isDigit
    · simp only [takeDigits, hx, if_true, List.cons_append] at h ⊢
      obtain ⟨h1, h2⟩ := Prod.mk.injEq .. ▸ h
      have := ih (Prod.ext rfl h2)
      simp [this, ← h1]
    · simp only [takeDigits, hx, if_false] at h ⊢
      obtain ⟨h1, h2⟩ := Prod.mk.injEq .. ▸ h
      cases h2
      simp [takeDigits, hx, ← h1]

theorem takeDigits_nil_of_not_digit {x : Char} (t : List Char)
    (hx : x.isDigit = false) : takeDigits (x :: t) = ([], x :: t) := by
  simp [takeDigits, hx]

theorem digit2_append {i : List Char} {n : Nat} {r : List Char}
    (h : digit2 i = some (n, r)) (e : List Char) :
    digit2 (i ++ e) = some (n, r ++ e) := by
  match i with
  | [] => simp [digit2] at h
  | [a] => simp [digit2] at h
  | a :: b :: t =>
    by_cases hab : a.isDigit ∧ b.isDigit
    · simp [digit2, hab] at h ⊢
      obtain ⟨h1, h2⟩ := h
      subst h2
      exact ⟨h1, rfl⟩
    · simp [digit2, hab] at h

theorem digit3_append {i : List Char} {n : Nat} {r : List Char}
    (h : digit3 i = some (n, r)) (e : List Char) :
    digit3 (i ++ e) = some (n, r ++ e) := by
  match i with
  | [] => simp [digit3] at h
  | [a] => simp [digit3] at h
  | [a, b] => simp [digit3] at h
  | a :: b :: c :: t =>
    by_cases habc : a.isDigit ∧ b.isDigit ∧ c.isDigit
    · simp [digit3, habc] at h ⊢
      obtain ⟨h1, h2⟩ := h
      subst h2
      exact ⟨h1, rfl⟩
    · simp [digit3, habc] at h

theorem digit2_not_digit {a : Char} (t : List Char)
    (ha : a.isDigit = false) : digit2 (a :: t) = none := by
  cases t with
  | nil => simp [digit2]
  | cons b t' => simp [digit2, ha]

theorem comma_not_digit : (',').isDigit = false := by decide

theorem parse_hms_comma (x : List Char) : parse_hms (',' :: x) = none := by
  simp [parse_hms, digit2_not_digit x comma_not_digit]

theorem parse_hms_append {i : List Char} {t : NaiveTime} {r : List Char}
    (h : parse_hms i = some (t, ',' :: r)) (e : List Char) :
    parse_hms (i ++ e) = some (t, ',' :: (r ++ e)) := by
  unfold parse_hms at h ⊢
  cases h1 : digit2 i with
  | none => rw [h1] at h; simp at h
  | some v1 =>
    obtain ⟨hh, i1⟩ := v1
    simp only [h1] at h
    simp only [digit2_append h1 e]
    cases h2 : digit2 i1 with
    | none => rw [h2] at h; simp at h
    | some v2 =>
      obtain ⟨mm, i2⟩ := v2
      simp only [h2] at h
      simp only [digit2_append h2 e]
      cases h3 : digit2 i2 with
      | none => rw [h3] at h; simp at h
      | some v3 =>
        obtain ⟨ss, i3⟩ := v3
        simp only [h3] at h
        simp only [digit2_append h3 e]
        cases i3 with
        | nil => simp at h
        | cons c r' =>
          by_cases hc : c = '.'
          · subst hc
            simp only [if_true, List.cons_append] at h ⊢
            cases h4 : takeDigits r' with
            | mk ds r'' =>
              rw [h4] at h
              cases ds with
              | nil => simp at h
              | cons d ds' =>
                simp only [Option.some.injEq, Prod.mk.injEq] at h
                obtain ⟨ht, hr⟩ := h
                subst ht
                rw [takeDigits_append (hr ▸ h4) e]
          · simp only [hc, if_false, Option.some.injEq, Prod.mk.injEq,
              List.cons_append] at h ⊢
            obtain ⟨ht, hr⟩ := h
            have hc' : c = ',' := by
              have := congrArg (fun l => l.head?) hr
              simpa using this
            subst hc'
            have hr' : r' = r := by
              have := congrArg (fun l => l.tail) hr
              simpa using this
            subst hr'
            simp [ht, hc]

theorem parse_date_comma (x : List Char) : parse_date (',' :: x) = none := by
  simp [parse_date, digit2_not_digit x comma_not_digit]

theorem parse_date_append {i : List Char} {d : NaiveDate} {r : List Char}
    (h : parse_date i = some (d, r)) (e : List Char) :
    parse_date (i ++ e) = some (d, r ++ e) := by
  unfold parse_date at h ⊢
  cases h1 : digit2 i with
  | none => rw [h1] at h; simp at h
  | some v1 =>
    obtain ⟨dd, i1⟩ := v1
    simp only [h1] at h
    simp only [digit2_append h1 e]
    cases h2 : digit2 i1 with
    | none => rw [h2] at h; simp at h
    | some v2 =>
      obtain ⟨mm, i2⟩ := v2
      simp only [h2] at h
      simp only [digit2_append h2 e]
      cases h3 : digit2 i2 with
      | none => rw [h3] at h; simp at h
      | some v3 =>
        obtain ⟨yy, i3⟩ := v3
        simp only [h3] at h
        simp only [digit2_append h3 e]
        simp only [Option.some.injEq, Prod.mk.injEq] at h ⊢
        exact ⟨h.1, by rw [h.2]⟩

theorem parse_ufloat_comma (x : List Char) : parse_ufloat (',' :: x) = none := by
  simp [parse_ufloat, takeDigits_nil_of_not_digit x comma_not_digit]

theorem parse_ufloat_append {i : List Char} {q : ℚ} {r : List Char}
    (h : parse_ufloat i = some (q, ',' :: r)) (e : List Char) :
    parse_ufloat (i ++ e) = some (q, ',' :: (r ++ e)) := by
  unfold parse_ufloat at h ⊢
  cases h1 : takeDigits i with
  | mk ds r1 =>
    simp only [h1] at h
    cases ds with
    | nil => simp at h
    | cons d ds' =>
      cases r1 with
      | nil => simp at h
      | cons c r2 =>
        simp only [takeDigits_append h1 e, List.cons_append]
        by_cases hc : c = '.'
        · subst hc
          simp only [if_true] at h ⊢
          cases h2 : takeDigits r2 with
          | mk fs r3 =>
            simp only [h2] at h
            cases fs with
            | nil => simp at h
            | cons f fs' =>
              simp only [Option.some.injEq, Prod.mk.injEq] at h
              obtain ⟨hq, hr⟩ := h
              subst hq
              rw [takeDigits_append (hr ▸ h2) e]
        · simp only [hc, if_false, Option.some.injEq, Prod.mk.injEq] at h ⊢
          obtain ⟨hq, hr⟩ := h
          have hc' : c = ',' := by
            have := congrArg (fun l => l.head?) hr
            simpa using this
          subst hc'
          have hr' : r2 = r := by
            have := congrArg (fun l => l.tail) hr
            simpa using this
          subst hr'
          simp [hq, hc]

theorem parse_float_comma (x : List Char) : parse_float (',' :: x) = none := by
  simp only [parse_float]
  have h1 : (',' : Char) = '+' ↔ False := by simp
  have h2 : (',' : Char) = '-' ↔ False := by simp
  simp [h1, h2, parse_ufloat_comma]

theorem parse_float_append {i : List Char} {q : ℚ} {r : List Char}
    (h : parse_float i = some (q, ',' :: r)) (e : List Char) :
    parse_float (i ++ e) = some (q, ',' :: (r ++ e)) := by
  unfold parse_float at h ⊢
  cases i with
  | nil => simp at h
  | cons c r0 =>
    dsimp only at h
    simp only [List.cons_append]
    by_cases hp : c = '+'
    · simp only [hp, if_true] at h ⊢
      exact parse_ufloat_append h e
    · by_cases hm : c = '-'
      · subst hm
        rw [if_neg (by decide : ¬ ('-' : Char) = '+'), if_pos rfl] at h ⊢
        cases h1 : parse_ufloat r0 with
        | none => rw [h1] at h; simp at h
        | some v =>
          obtain ⟨q0, r1⟩ := v
          simp only [h1] at h
          rw [Option.some.injEq, Prod.mk.injEq] at h
          obtain ⟨hq, hr⟩ := h
          subst hq
          rw [parse_ufloat_append (hr ▸ h1) e]
      · simp only [hp, hm, if_false] at h ⊢
        have := parse_ufloat_append (i := c :: r0) h e
        simpa using this

theorem parse_lat_lon_full_append {i : List Char} {v : Option (ℚ × ℚ)}
    {r : List Char} (h : parse_lat_lon_full i = some (v, r)) (e : List Char) :
    parse_lat_lon_full (i ++ e) = some (v, r ++ e) := by
  unfold parse_lat_lon_full at h ⊢
  cases h1 : digit2 i with
  | none => rw [h1] at h; simp at h
  | some v1 =>
    obtain ⟨latd, i1⟩ := v1
    simp only [h1] at h
    simp only [digit2_append h1 e]
    cases h2 : parse_ufloat i1 with
    | none => rw [h2] at h; simp at h
    | some v2 =>
      obtain ⟨latm, i2⟩ := v2
      simp only [h2] at h
      cases h3 : pchar ',' i2 with
      | none => rw [h3] at h; simp at h
      | some v3 =>
        obtain ⟨u3, i3⟩ := v3
        simp only [h3] at h
        obtain rfl := pchar_some h3
        simp only [parse_ufloat_append h2 e, pchar_cons, List.cons_append]
        cases h4 : one_of ['N', 'S'] i3 with
        | none => rw [h4] at h; simp at h
        | some v4 =>
          obtain ⟨ns, i4⟩ := v4
          simp only [h4] at h
          obtain ⟨rfl, hmem4⟩ := one_of_some h4
          simp only [List.cons_append, one_of_cons_mem _ hmem4]
          cases h5 : pchar ',' i4 with
          | none => rw [h5] at h; simp at h
          | some v5 =>
            obtain ⟨u5, i5⟩ := v5
            simp only [h5] at h
            obtain rfl := pchar_some h5
            simp only [List.cons_append, pchar_cons]
            cases h6 : digit3 i5 with
            | none => rw [h6] at h; simp at h
            | some v6 =>
              obtain ⟨lond, i6⟩ := v6
              simp only [h6] at h
              simp only [digit3_append h6 e]
              cases h7 : parse_ufloat i6 with
              | none => rw [h7] at h; simp at h
              | some v7 =>
                obtain ⟨lonm, i7⟩ := v7
                simp only [h7] at h
                cases h8 : pchar ',' i7 with
                | none => rw [h8] at h; simp at h
                | some v8 =>
                  obtain ⟨u8, i8⟩ := v8
                  simp only [h8] at h
                  obtain rfl := pchar_some h8
                  simp only [parse_ufloat_append h7 e, pchar_cons,
                    List.cons_append]
                  cases h9 : one_of ['E', 'W'] i8 with
                  | none => rw [h9] at h; simp at h
                  | some v9 =>
                    obtain ⟨ew, i9⟩ := v9
                    simp only [h9] at h
                    obtain ⟨rfl, hmem9⟩ := one_of_some h9
                    simp only [List.cons_append, one_of_cons_mem _ hmem9]
                    simp only [Option.some.injEq, Prod.mk.injEq] at h ⊢
                    exact ⟨h.1, by rw [h.2]⟩

theorem parse_lat_lon_full_min_len {i : List Char} {v : Option (ℚ × ℚ)}
    {r : List Char} (h : parse_lat_lon_full i = some (v, r)) :
    3 ≤ i.length := by
  unfold parse_lat_lon_full at h
  cases h1 : digit2 i with
  | none => rw [h1] at h; simp at h
  | some v1 =>
    obtain ⟨latd, i1⟩ := v1
    simp only [h1] at h
    cases h2 : parse_ufloat i1 with
    | none => rw [h2] at h; simp at h
    | some v2 =>
      obtain ⟨latm, i2⟩ := v2
      match i, h1 with
      | a :: b :: t, h1 =>
        cases t with
        | cons x t' => simp
        | nil =>
          have hi1 : i1 = [] := by
            by_cases hab : a.isDigit ∧ b.isDigit
            · simp [digit2, hab] at h1
              simp [h1]
            · simp [digit2, hab] at h1
          subst hi1
          simp [parse_ufloat, takeDigits] at h2

theorem parse_lat_lon_append {i : List Char} {v : Option (ℚ × ℚ)}
    {r : List Char} (h : parse_lat_lon i = some (v, r)) (e : List Char) :
    parse_lat_lon (i ++ e) = some (v, r ++ e) := by
  match i with
  | a :: b :: c :: t =>
    simp only [parse_lat_lon, List.cons_append] at h ⊢
    by_cases habc : a = ',' ∧ b = ',' ∧ c = ','
    · obtain ⟨rfl, rfl, rfl⟩ := habc
      rw [if_pos ⟨rfl, rfl, rfl⟩] at h ⊢
      rw [Option.some.injEq, Prod.mk.injEq] at h
      obtain ⟨rfl, rfl⟩ := h
      rfl
    · simp only [habc, if_false] at h ⊢
      have := parse_lat_lon_full_append h e
      simpa using this
  | [] =>
    simp only [parse_lat_lon] at h
    have := parse_lat_lon_full_min_len h
    simp at this
  | [a] =>
    simp only [parse_lat_lon] at h
    have := parse_lat_lon_full_min_len h
    simp at this
  | [a, b] =>
    simp only [parse_lat_lon] at h
    have := parse_lat_lon_full_min_len h
    simp at this

theorem optP_comma_append {α : Type} {p : List Char → Option (α × List Char)}
    (hext : ∀ {i : List Char} {a : α} {r : List Char} (e : List Char),
      p i = some (a, ',' :: r) → p (i ++ e) = some (a, ',' :: (r ++ e)))
    (hcomma : ∀ x, p (',' :: x) = none)
    {i i2 : List Char} {a : Option α}
    (h : optP p i = (a, ',' :: i2)) (e : List Char) :
    optP p (i ++ e) = (a, ',' :: (i2 ++ e)) := by
  unfold optP at h ⊢
  cases hp : p i with
  | none =>
    simp only [hp] at h
    rw [Prod.mk.injEq] at h
    obtain ⟨ha, hi⟩ := h
    subst ha
    subst hi
    rw [List.cons_append, hcomma (i2 ++ e)]
  | some v =>
    obtain ⟨x, rx⟩ := v
    simp only [hp] at h
    rw [Prod.mk.injEq] at h
    obtain ⟨ha, hrx⟩ := h
    subst ha
    rw [hext e (hrx ▸ hp)]

/-- Key structural lemma: a successful field decode is preserved, with the
identical record, when arbitrary text is appended after the input; only
the unconsumed suffix grows. -/
theorem do_parse_rmc_append {input : List Char} {r : RmcData}
    {rest : List Char} (h : do_parse_rmc input = PR.ok r rest)
    (e : List Char) : do_parse_rmc (input ++ e) = PR.ok r (rest ++ e) := by
  unfold do_parse_rmc at h ⊢
  cases h0 : optP parse_hms input with
  | mk ft i1 =>
    simp only [h0] at h
    cases h1 : pchar ',' i1 with
    | none => rw [h1] at h; simp at h
    | some v1 =>
      obtain ⟨u1, i2⟩ := v1
      simp only [h1] at h
      obtain rfl := pchar_some h1
      have h0' := optP_comma_append
        (fun {i a r} e hp => parse_hms_append hp e) parse_hms_comma h0 e
      simp only [h0', pchar_cons]
      cases h2 : one_of statusChars i2 with
      | none => rw [h2] at h; simp at h
      | some v2 =>
        obtain ⟨c, i3⟩ := v2
        simp only [h2] at h
        obtain ⟨rfl, hmem⟩ := one_of_some h2
        simp only [List.cons_append, one_of_cons_mem _ hmem]
        cases h3 : statusFromChar c with
        | none => rw [h3] at h; simp at h
        | some st =>
          simp only [h3] at h ⊢
          cases h4 : pchar ',' i3 with
          | none => rw [h4] at h; simp at h
          | some v4 =>
            obtain ⟨u4, i4⟩ := v4
            simp only [h4] at h
            obtain rfl := pchar_some h4
            simp only [List.cons_append, pchar_cons]
            cases h5 : parse_lat_lon i4 with
            | none => rw [h5] at h; simp at h
            | some v5 =>
              obtain ⟨ll, i5⟩ := v5
              simp only [h5] at h
              simp only [parse_lat_lon_append h5 e]
              cases h6 : pchar ',' i5 with
              | none => rw [h6] at h; simp at h
              | some v6 =>
                obtain ⟨u6, i6⟩ := v6
                simp only [h6] at h
                obtain rfl := pchar_some h6
                simp only [List.cons_append, pchar_cons]
                cases h7 : optP parse_float i6 with
                | mk sog i7 =>
                  simp only [h7] at h
                  cases h8 : pchar ',' i7 with
                  | none => rw [h8] at h; simp at h
                  | some v8 =>
                    obtain ⟨u8, i8⟩ := v8
                    simp only [h8] at h
                    obtain rfl := pchar_some h8
                    have h7' := optP_comma_append
                      (fun {i a r} e hp => parse_float_append hp e)
                      parse_float_comma h7 e
                    simp only [h7', pchar_cons]
                    cases h9 : optP parse_float i8 with
                    | mk tc i9 =>
                      simp only [h9] at h
                      cases h10 : pchar ',' i9 with
                      | none => rw [h10] at h; simp at h
                      | some v10 =>
                        obtain ⟨u10, i10⟩ := v10
                        simp only [h10] at h
                        obtain rfl := pchar_some h10
                        have h9' := optP_comma_append
                          (fun {i a r} e hp => parse_float_append hp e)
                          parse_float_comma h9 e
                        simp only [h9', pchar_cons]
                        cases h11 : optP parse_date i10 with
                        | mk fd i11 =>
                          simp only [h11] at h
                          cases h12 : pchar ',' i11 with
                          | none => rw [h12] at h; simp at h
                          | some v12 =>
                            obtain ⟨u12, i12⟩ := v12
                            simp only [h12] at h
                            obtain rfl := pchar_some h12
                            have h11' := optP_comma_append
                              (fun {i a r} e hp => by
                                simpa using parse_date_append hp e)
                              parse_date_comma h11 e
                            simp only [h11', pchar_cons]
                            rw [PR.ok.injEq] at h
                            obtain ⟨rfl, rfl⟩ := h
                            rfl

theorem statusFromChar_of_mem {c : Char} (h : c ∈ statusChars) :
    ∃ s, statusFromChar c = some s := by
  simp only [statusChars, List.mem_cons, List.mem_singleton,
    List.not_mem_nil, or_false] at h
  rcases h with rfl | rfl | rfl
  · exact ⟨.Autonomous, by simp [statusFromChar]⟩
  · exact ⟨.Differential, by simp [statusFromChar]⟩
  · exact ⟨.Invalid, by simp [statusFromChar]⟩

/-- The `unreachable!()` arm of the status match is never executed: on
every input, `do_parse_rmc` ends in success or recoverable failure. -/
theorem do_parse_rmc_no_panic (i : List Char) :
    do_parse_rmc i ≠ PR.panic := by
  unfold do_parse_rmc
  cases h0 : optP parse_hms i with
  | mk ft i1 =>
    dsimp only
    cases h1 : pchar ',' i1 with
    | none => simp
    | some v1 =>
      obtain ⟨u1, i2⟩ := v1
      dsimp only
      cases h2 : one_of statusChars i2 with
      | none => simp
      | some v2 =>
        obtain ⟨c, i3⟩ := v2
        dsimp only
        obtain ⟨hsh, hmem⟩ := one_of_some h2
        obtain ⟨s, hs⟩ := statusFromChar_of_mem hmem
        rw [hs]
        dsimp only
        cases h4 : pchar ',' i3 with
        | none => simp
        | some v4 =>
          obtain ⟨u4, i4⟩ := v4
          dsimp only
          cases h5 : parse_lat_lon i4 with
          | none => simp
          | some v5 =>
            obtain ⟨ll, i5⟩ := v5
            dsimp only
            cases h6 : pchar ',' i5 with
            | none => simp
            | some v6 =>
              obtain ⟨u6, i6⟩ := v6
              dsimp only
              cases h7 : optP parse_float i6 with
              | mk sog i7 =>
                dsimp only
                cases h8 : pchar ',' i7 with
                | none => simp
                | some v8 =>
                  obtain ⟨u8, i8⟩ := v8
                  dsimp only
                  cases h9 : optP parse_float i8 with
                  | mk tc i9 =>
                    dsimp only
                    cases h10 : pchar ',' i9 with
                    | none => simp
                    | some v10 =>
                      obtain ⟨u10, i10⟩ := v10
                      dsimp only
                      cases h11 : optP parse_date i10 with
                      | mk fd i11 =>
                        dsimp only
                        cases h12 : pchar ',' i11 with
                        | none => simp
                        | some v12 =>
                          obtain ⟨u12, i12⟩ := v12
                          simp

/-- Whenever the field decode succeeds, the `lat` and `lon` fields of the
record are the two projections of the one coordinate-pair value. -/
theorem do_parse_rmc_ok_shape {i : List Char} {r : RmcData}
    {rest : List Char} (h : do_parse_rmc i = PR.ok r rest) :
    ∃ ll : Option (ℚ × ℚ),
      r.lat = ll.map Prod.fst ∧ r.lon = ll.map Prod.snd := by
  unfold do_parse_rmc at h
  repeat' split at h
  all_goals try exact PR.noConfusion h
  rw [PR.ok.injEq] at h
  obtain ⟨h1, h2⟩ := h
  subst h1
  exact ⟨_, rfl, rfl⟩

/-- If the field decode succeeds and the character right after the first
delimiter is `c`, the record's status is exactly the status the match
table assigns to `c`. -/
theorem do_parse_rmc_ok_status {input : List Char} {t : Option NaiveTime}
    {c : Char} {i1 : List Char} {r : RmcData} {rr : List Char}
    (h0 : optP parse_hms input = (t, ',' :: c :: i1))
    (h : do_parse_rmc input = PR.ok r rr) :
    statusFromChar c = some r.status_of_fix := by
  unfold do_parse_rmc at h
  simp only [h0, pchar_cons] at h
  by_cases hmem : c ∈ statusChars
  · simp only [one_of_cons_mem _ hmem] at h
    cases hs : statusFromChar c with
    | none => rw [hs] at h; simp at h
    | some s =>
      simp only [hs] at h
      repeat' split at h
      all_goals try exact PR.noConfusion h
      rw [PR.ok.injEq] at h
      obtain ⟨h1, h2⟩ := h
      subst h1
      rfl
  · simp only [one_of, if_neg hmem] at h
    exact PR.noConfusion h

/-- A status character outside the closed alphabet makes the whole decode
fail. -/
theorem do_parse_rmc_bad_status {input : List Char} {t : Option NaiveTime}
    {c : Char} {i1 : List Char}
    (h0 : optP parse_hms input = (t, ',' :: c :: i1))
    (hc : c ∉ statusChars) : do_parse_rmc input = PR.fail := by
  unfold do_parse_rmc
  simp only [h0, pchar_cons]
  simp only [one_of, if_neg hc]

/-- An input ending right after the first delimiter (no status character
at all) makes the whole decode fail. -/
theorem do_parse_rmc_empty_status {input : List Char} {t : Option NaiveTime}
    (h0 : optP parse_hms input = (t, [','])) :
    do_parse_rmc input = PR.fail := by
  unfold do_parse_rmc
  simp only [h0, pchar_cons]
  simp only [one_of]

/-! ## The claims -/

/-- Claim C1: decoding the field-data string
`225446.33,A,4916.45,N,12311.12,W,000.5,054.7,191194,020.3,E,A` succeeds
and yields fix_time 22:54:46.330, status Autonomous,
latitude 49 + 16.45/60 (positive), longitude −(123 + 11.12/60) (negative),
speed over ground 0.5, true course 54.7, and fix date 19 November 1994;
the trailing `020.3,E,A` is left unconsumed. -/
theorem rmc_decodes_gpsd_example :
    do_parse_rmc
        "225446.33,A,4916.45,N,12311.12,W,000.5,054.7,191194,020.3,E,A".toList
      = PR.ok { fix_time := some ⟨22, 54, 46, 330⟩,
                fix_date := some ⟨1994, 11, 19⟩,
                status_of_fix := .Autonomous,
                lat := some (49 + 16.45 / 60),
                lon := some (-(123 + 11.12 / 60)),
                speed_over_ground := some 0.5,
                true_course := some 54.7 } "020.3,E,A".toList := by
  simp [do_parse_rmc, optP, parse_hms, parse_date, parse_float, parse_ufloat,
    parse_lat_lon, parse_lat_lon_full, digit2, digit3, pchar, one_of,
    statusChars, statusFromChar, takeDigits, natOfDigits, milliOfFrac,
    digitVal_0, digitVal_1, digitVal_2, digitVal_3, digitVal_4, digitVal_5,
    digitVal_6, digitVal_7, digitVal_8, digitVal_9]
  norm_num

/-- Claim C2: the status field decodes exactly `'A'` to Autonomous, `'D'`
to Differential and `'V'` to Invalid; any other character in that
position, and an empty status field (input exhausted right after the
first delimiter), makes the whole decode fail. -/
theorem status_of_fix_closed_alphabet
    (input : List Char) (t : Option NaiveTime) (i1 : List Char)
    (h0 : optP parse_hms input = (t, ',' :: i1)) :
    (i1 = [] → do_parse_rmc input = PR.fail) ∧
    (∀ c rest2, i1 = c :: rest2 →
      ((c = 'A' → ∀ r rr, do_parse_rmc input = PR.ok r rr →
          r.status_of_fix = RmcStatusOfFix.Autonomous) ∧
       (c = 'D' → ∀ r rr, do_parse_rmc input = PR.ok r rr →
          r.status_of_fix = RmcStatusOfFix.Differential) ∧
       (c = 'V' → ∀ r rr, do_parse_rmc input = PR.ok r rr →
          r.status_of_fix = RmcStatusOfFix.Invalid) ∧
       (c ≠ 'A' → c ≠ 'D' → c ≠ 'V' → do_parse_rmc input = PR.fail))) := by
  constructor
  · intro hnil
    subst hnil
    exact do_parse_rmc_empty_status h0
  · intro c rest2 hi1
    subst hi1
    refine ⟨?_, ?_, ?_, ?_⟩
    · rintro rfl r rr hok
      have := do_parse_rmc_ok_status h0 hok
      simpa [statusFromChar] using this.symm
    · rintro rfl r rr hok
      have := do_parse_rmc_ok_status h0 hok
      simpa [statusFromChar] using this.symm
    · rintro rfl r rr hok
      have := do_parse_rmc_ok_status h0 hok
      simpa [statusFromChar] using this.symm
    · intro hA hD hV
      exact do_parse_rmc_bad_status h0 (by simp [statusChars, hA, hD, hV])

/-- Witness for C2 at the concrete input `,X,,,,,,,,,`: the time field is
absent, the status character is the unrecognized `'X'`, and the decode
fails. -/
theorem status_of_fix_closed_alphabet_witness :
    do_parse_rmc ",X,,,,,,,,,".toList = PR.fail :=
  ((status_of_fix_closed_alphabet ",X,,,,,,,,,".toList none
      ('X' :: ",,,,,,,,,".toList) (by decide)).2 'X' ",,,,,,,,,".toList
    rfl).2.2.2 (by decide) (by decide) (by decide)

/-- Claim C3: whenever decoding succeeds, latitude is present if and only
if longitude is present — both are projections of the one atomic
coordinate-pair value. -/
theorem lat_lon_jointly_optional (s : NmeaSentence) (r : RmcData)
    (h : parse_rmc s = some (Except.ok r)) :
    r.lat.isSome ↔ r.lon.isSome := by
  unfold parse_rmc at h
  by_cases hg : s.message_id ≠ SentenceType.RMC
  · rw [if_pos hg] at h
    simp at h
  · rw [if_neg hg] at h
    cases hd : do_parse_rmc s.data with
    | ok data rest =>
      simp only [hd] at h
      simp only [Option.some.injEq, Except.ok.injEq] at h
      subst h
      obtain ⟨ll, h1, h2⟩ := do_parse_rmc_ok_shape hd
      cases ll <;> simp [h1, h2]
    | fail => simp only [hd] at h; simp at h
    | panic => simp only [hd] at h; simp at h

/-- Witness for C3 at the all-empty sentence: decoding succeeds with both
coordinates absent. -/
theorem lat_lon_jointly_optional_witness :
    (Option.isSome (α := ℚ) none ↔ Option.isSome (α := ℚ) none) :=
  lat_lon_jointly_optional ⟨SentenceType.RMC, ",V,,,,,,,,,,N".toList⟩
    ⟨none, none, .Invalid, none, none, none, none⟩ rfl

/-- Claim C4: every empty optional field decodes to absence: the
field-data string `,V,,,,,,,,,,N` decodes successfully to the record with
all optional fields absent and status Invalid (the trailing `,,N` beyond
the terminating delimiter is left unconsumed). -/
theorem empty_fields_decode_to_absence :
    do_parse_rmc ",V,,,,,,,,,,N".toList
      = PR.ok { fix_time := none, fix_date := none,
                status_of_fix := .Invalid,
                lat := none, lon := none,
                speed_over_ground := none,
                true_course := none } ",,N".toList := by
  decide

/-- Claim C5: a sentence whose declared tag is not RMC is rejected with a
wrong-sentence-type error carrying both the expected and the found tag,
and the field-data string is never consulted (any data yields the same
outcome). -/
theorem wrong_sentence_type_guard (s : NmeaSentence)
    (h : s.message_id ≠ SentenceType.RMC) :
    parse_rmc s = some (.error
        (.WrongSentenceHeader SentenceType.RMC s.message_id)) ∧
    ∀ d : List Char, parse_rmc ⟨s.message_id, d⟩ = parse_rmc s := by
  constructor
  · unfold parse_rmc
    rw [if_pos h]
  · intro d
    unfold parse_rmc
    simp only
    rw [if_pos h, if_pos h]

/-- Witness for C5 at a concrete GGA-tagged sentence. -/
theorem wrong_sentence_type_guard_witness :
    parse_rmc ⟨SentenceType.GGA, []⟩ = some (.error
        (.WrongSentenceHeader SentenceType.RMC SentenceType.GGA)) :=
  (wrong_sentence_type_guard ⟨SentenceType.GGA, []⟩ (by decide)).1

/-- Claim C6: decoding is all-or-nothing: every invocation returns a full
record or a typed failure (never a panic, never a partial record); in
particular a malformed time numeral, an unrecognized status letter, an
incomplete coordinate pair, and an input exhausted before a required
delimiter each fail. -/
theorem all_or_nothing :
    (∀ s : NmeaSentence, (∃ r, parse_rmc s = some (Except.ok r)) ∨
      (∃ er, parse_rmc s = some (Except.error er))) ∧
    do_parse_rmc "2254ab,A,4916.45,N,12311.12,W,000.5,054.7,191194,".toList
      = PR.fail ∧
    do_parse_rmc ",Q,,,,,,,,,".toList = PR.fail ∧
    do_parse_rmc ",A,4916.45,N,,,,,,".toList = PR.fail ∧
    do_parse_rmc ",V".toList = PR.fail := by
  refine ⟨?_, by decide, by decide, by decide, by decide⟩
  intro s
  unfold parse_rmc
  by_cases hg : s.message_id ≠ SentenceType.RMC
  · rw [if_pos hg]
    right
    exact ⟨_, rfl⟩
  · rw [if_neg hg]
    cases hd : do_parse_rmc s.data with
    | ok data rest => left; exact ⟨data, rfl⟩
    | fail => right; exact ⟨_, rfl⟩
    | panic => exact absurd hd (do_parse_rmc_no_panic s.data)

/-- Claim C7: decoding is insensitive to trailing protocol-revision
fields: if a field-data string is consumed exactly up to the terminating
delimiter, appending any trailing fields yields the identical record,
with the trailing fields left undecoded. -/
theorem trailing_revision_fields_ignored (base trailing : List Char)
    (r : RmcData) (h : do_parse_rmc base = PR.ok r []) :
    do_parse_rmc (base ++ trailing) = PR.ok r trailing := by
  simpa using do_parse_rmc_append h trailing

/-- Witness for C7: the gpsd example in pre-NMEA-2.3 form (no mode
indicator) versus with the NMEA 2.3/4.1 trailing fields appended. -/
theorem trailing_revision_fields_ignored_witness :
    do_parse_rmc
        ("225446.33,A,4916.45,N,12311.12,W,000.5,054.7,191194,".toList
          ++ "020.3,E,A,S".toList)
      = PR.ok { fix_time := some ⟨22, 54, 46, 330⟩,
                fix_date := some ⟨1994, 11, 19⟩,
                status_of_fix := .Autonomous,
                lat := some (49 + 16.45 / 60),
                lon := some (-(123 + 11.12 / 60)),
                speed_over_ground := some 0.5,
                true_course := some 54.7 } "020.3,E,A,S".toList := by
  apply trailing_revision_fields_ignored
  simp [do_parse_rmc, optP, parse_hms, parse_date, parse_float, parse_ufloat,
    parse_lat_lon, parse_lat_lon_full, digit2, digit3, pchar, one_of,
    statusChars, statusFromChar, takeDigits, natOfDigits, milliOfFrac,
    digitVal_0, digitVal_1, digitVal_2, digitVal_3, digitVal_4, digitVal_5,
    digitVal_6, digitVal_7, digitVal_8, digitVal_9]
  norm_num

/-- Claim C8: the decoder is deterministic — identical inputs yield
identical results; it is a pure function of the sentence with no hidden
state between calls. -/
theorem parse_rmc_deterministic (s t : NmeaSentence) (h : s = t) :
    parse_rmc s = parse_rmc t := by
  rw [h]

/-- Witness for C8 at a concrete sentence. -/
theorem parse_rmc_deterministic_witness :
    parse_rmc ⟨SentenceType.RMC, ",V,,,,,,,,,,N".toList⟩ =
      parse_rmc ⟨SentenceType.RMC, ",V,,,,,,,,,,N".toList⟩ :=
  parse_rmc_deterministic _ _ rfl

/-- Claim C9: the `unreachable!()` arm is dead code: whenever the
one-of-"ADV" parser succeeds the matched character is `'A'`, `'D'` or
`'V'`, and `do_parse_rmc` never reaches the panic arm on any input. -/
theorem unreachable_arm_is_dead (i : List Char) :
    (∀ c rest, one_of statusChars i = some (c, rest) →
      c = 'A' ∨ c = 'D' ∨ c = 'V') ∧
    do_parse_rmc i ≠ PR.panic := by
  constructor
  · intro c rest h
    have := (one_of_some h).2
    simpa [statusChars] using this
  · exact do_parse_rmc_no_panic i

/-- Witness for C9: the status-parser premise holds at a concrete input,
and the decoder does not panic on the empty string. -/
theorem unreachable_arm_is_dead_witness :
    ('A' = 'A' ∨ 'A' = 'D' ∨ 'A' = 'V') ∧ do_parse_rmc [] ≠ PR.panic :=
  ⟨(unreachable_arm_is_dead ['A', 'x']).1 'A' ['x'] (by decide),
   (unreachable_arm_is_dead []).2⟩

/-- Claim C10: the suffix beyond the consumed portion is entirely
unvalidated: appending arbitrary text to any accepted field-data string
yields success with the exact same record, the appended text simply
extending the unconsumed suffix. -/
theorem suffix_entirely_unvalidated (i extra : List Char) (r : RmcData)
    (rest : List Char) (h : do_parse_rmc i = PR.ok r rest) :
    do_parse_rmc (i ++ extra) = PR.ok r (rest ++ extra) :=
  do_parse_rmc_append h extra

/-- Witness for C10: appending text that is not a well-formed revision
field to an accepted sentence leaves the record unchanged. -/
theorem suffix_entirely_unvalidated_witness :
    do_parse_rmc (",V,,,,,,,,,,N".toList ++ "@@not-a-field".toList) =
      PR.ok { fix_time := none, fix_date := none,
              status_of_fix := .Invalid,
              lat := none, lon := none,
              speed_over_ground := none,
              true_course := none } (",,N".toList ++ "@@not-a-field".toList) :=
  suffix_entirely_unvalidated ",V,,,,,,,,,,N".toList "@@not-a-field".toList
    _ ",,N".toList (by decide)

end Nmea
